import Mathlib

/-!
Verification development for the serialJson repository.

The repository frames JSON messages over a serial link:
a frame is a big-endian 4-byte payload length, the payload bytes,
a big-endian CRC-16 checksum of the payload and (in some variants)
a newline terminator.  Receivers reassemble frames from a byte
buffer, validate them and answer with the feedback tokens OK and
RETRY; senders retry a bounded number of times.

Bytes are modelled as natural numbers below 256, byte sequences as
List Nat, and machine integer truncation as explicit remainders
modulo 65536 or 4294967296.  Every definition is translated from the
Go sources under src/; external collaborators (the sigurn crc16
library, encoding-json and base64 decoding, Go channel close) are
modelled where a claim depends on them, as documented inline.
-/

namespace SerialJson

set_option maxRecDepth 10000

/-- Big-endian 4-byte encoding of a 32-bit value, as produced by Go
binary.BigEndian.PutUint32 on uint32(len(data)) in send.go and
sender.go. -/
def be32bytes (n : Nat) : List Nat :=
  [n / 16777216 % 256, n / 65536 % 256, n / 256 % 256, n % 256]

/-- Big-endian 32-bit read of the first four bytes of a list, as Go
binary.BigEndian.Uint32 applied to buffer.Next(4). -/
def be32 : List Nat → Nat
  | b0 :: b1 :: b2 :: b3 :: _ => ((b0 * 256 + b1) * 256 + b2) * 256 + b3
  | _ => 0

/-- Big-endian 2-byte encoding, as Go binary.BigEndian.PutUint16. -/
def be16bytes (n : Nat) : List Nat := [n / 256 % 256, n % 256]

/-- Big-endian 16-bit read of the first two bytes of a list, as Go
binary.BigEndian.Uint16. -/
def be16 : List Nat → Nat
  | a :: b :: _ => a * 256 + b
  | _ => 0

theorem be32_be32bytes (n : Nat) (h : n < 4294967296) : be32 (be32bytes n) = n := by
  simp only [be32bytes, be32]
  omega

theorem be16_be16bytes (n : Nat) (h : n < 65536) : be16 (be16bytes n) = n := by
  simp only [be16bytes, be16]
  omega

theorem be32bytes_length (n : Nat) : (be32bytes n).length = 4 := rfl

theorem be16bytes_length (n : Nat) : (be16bytes n).length = 2 := rfl

/-! Bit-reversal helpers modelling utils.ReverseByte and
utils.ReverseUint16 from the sigurn helper library used by the
crc16 dependency of serialcomm/utils.go. -/

/-- Bit j of x, as a natural number (0 or 1). -/
def bitd (x j : Nat) : Nat := x / 2 ^ j % 2

/-- Reversal of the low k bits of x: bit j of the input becomes
bit k - 1 - j of the result. -/
def revN : Nat → Nat → Nat
  | 0, _ => 0
  | k + 1, x => 2 ^ k * (x % 2) + revN k (x / 2)

/-- Reversal of the low 8 bits, modelling utils.ReverseByte. -/
def rev8 (b : Nat) : Nat := revN 8 b

/-- Reversal of the low 16 bits, modelling utils.ReverseUint16: the
high output byte is the bit-reversed low input byte and the low
output byte is the bit-reversed high input byte. -/
def rev16 (x : Nat) : Nat := 256 * rev8 (x % 256) + rev8 (x / 256 % 256)

theorem revN_lt (k x : Nat) : revN k x < 2 ^ k := by
  induction k generalizing x with
  | zero => simp [revN]
  | succ k ih =>
    have h2 : revN k (x / 2) < 2 ^ k := ih (x / 2)
    have hp : 2 ^ (k + 1) = 2 ^ k * 2 := by rw [Nat.pow_succ]
    have h3 : 2 ^ k * (x % 2) ≤ 2 ^ k * 1 := Nat.mul_le_mul_left _ (by omega)
    simp only [revN]
    omega

theorem rev8_lt (b : Nat) : rev8 b < 256 := revN_lt 8 b

theorem rev16_lt (x : Nat) : rev16 x < 65536 := by
  have h1 := rev8_lt (x % 256)
  have h2 := rev8_lt (x / 256 % 256)
  simp only [rev16]
  omega

/-- Exclusive or acts digit-wise on a base-2-power split. -/
theorem xor_digit (k h₁ l₁ h₂ l₂ : Nat) (hl₁ : l₁ < 2 ^ k) (hl₂ : l₂ < 2 ^ k) :
    (2 ^ k * h₁ + l₁) ^^^ (2 ^ k * h₂ + l₂) = 2 ^ k * (h₁ ^^^ h₂) + (l₁ ^^^ l₂) := by
  have hx : l₁ ^^^ l₂ < 2 ^ k := Nat.xor_lt_two_pow hl₁ hl₂
  apply Nat.eq_of_testBit_eq
  intro i
  simp only [Nat.testBit_xor, Nat.testBit_mul_pow_two_add _ hl₁,
    Nat.testBit_mul_pow_two_add _ hl₂, Nat.testBit_mul_pow_two_add _ hx]
  by_cases h : i < k <;> simp [h]

theorem mod_two_xor (a b : Nat) : (a ^^^ b) % 2 = a % 2 ^^^ b % 2 := by
  rw [← Nat.and_one_is_mod, ← Nat.and_one_is_mod, ← Nat.and_one_is_mod,
    Nat.and_xor_distrib_right]

theorem revN_xor (k : Nat) : ∀ a b : Nat, revN k (a ^^^ b) = revN k a ^^^ revN k b := by
  induction k with
  | zero => intro a b; simp [revN]
  | succ k ih =>
    intro a b
    simp only [revN]
    rw [mod_two_xor, Nat.xor_div_two, ih (a / 2) (b / 2),
      xor_digit k (a % 2) (revN k (a / 2)) (b % 2) (revN k (b / 2))
        (revN_lt k (a / 2)) (revN_lt k (b / 2))]

theorem rev8_xor (a b : Nat) : rev8 (a ^^^ b) = rev8 a ^^^ rev8 b := revN_xor 8 a b

theorem rev8_rev8 : ∀ n < 256, rev8 (rev8 n) = n := by decide

theorem rev8_two_pow : ∀ k < 8, rev8 (2 ^ k) = 2 ^ (7 - k) := by decide

/-! Further distribution lemmas for exclusive or. -/

theorem xor_lt_65536 {a b : Nat} (ha : a < 65536) (hb : b < 65536) : a ^^^ b < 65536 := by
  have ha' : a < 2 ^ 16 := by omega
  have hb' : b < 2 ^ 16 := by omega
  have h := Nat.xor_lt_two_pow ha' hb'
  omega

theorem xor_lt_256 {a b : Nat} (ha : a < 256) (hb : b < 256) : a ^^^ b < 256 := by
  have ha' : a < 2 ^ 8 := by omega
  have hb' : b < 2 ^ 8 := by omega
  have h := Nat.xor_lt_two_pow ha' hb'
  omega

theorem div_pow_xor (k a b : Nat) : (a ^^^ b) / 2 ^ k = a / 2 ^ k ^^^ b / 2 ^ k := by
  induction k with
  | zero => simp
  | succ k ih =>
    have hp : ∀ x : Nat, x / 2 ^ (k + 1) = x / 2 ^ k / 2 := by
      intro x
      rw [Nat.div_div_eq_div_mul, Nat.pow_succ]
    rw [hp, hp, hp, ih, Nat.xor_div_two]

theorem mod_two_pow_xor (k a b : Nat) : (a ^^^ b) % 2 ^ k = a % 2 ^ k ^^^ b % 2 ^ k := by
  rw [← Nat.and_pow_two_sub_one_eq_mod, ← Nat.and_pow_two_sub_one_eq_mod,
    ← Nat.and_pow_two_sub_one_eq_mod, Nat.and_xor_distrib_right]

theorem mul_pow_xor (k a b : Nat) : (a ^^^ b) * 2 ^ k = a * 2 ^ k ^^^ b * 2 ^ k := by
  apply Nat.eq_of_testBit_eq
  intro i
  have hs : ∀ x : Nat, x * 2 ^ k = x <<< k := by
    intro x
    rw [Nat.shiftLeft_eq]
  rw [hs, hs, hs]
  simp only [Nat.testBit_shiftLeft, Nat.testBit_xor]
  by_cases h : i ≥ k <;> simp [h]

/-- Adding a low digit below 2 ^ k to a multiple of 2 ^ k is an
exclusive or. -/
theorem add_digit_eq_xor (k h l : Nat) (hl : l < 2 ^ k) : 2 ^ k * h + l = 2 ^ k * h ^^^ l := by
  have h0 : (0 : Nat) < 2 ^ k := Nat.pos_pow_of_pos k (by omega)
  have hx := xor_digit k h 0 0 l h0 hl
  simpa using hx.symm

/-! Model of the sigurn crc16 library (the package github sigurn crc16
imported by serialcomm/utils.go, send.go and receive.go): parameter
records, MakeTable entries, Update and Checksum.  Widths are tracked
by explicit remainders modulo 65536. -/

structure CrcParams where
  poly : Nat
  init : Nat
  refIn : Bool
  refOut : Bool
  xorOut : Nat
deriving Repr, DecidableEq

/-- One inner-loop round of crc16.MakeTable: record bit 15, shift
left one bit in uint16 arithmetic, then xor the polynomial if the
recorded bit was set. -/
def msbStep (poly x : Nat) : Nat :=
  if x &&& 0x8000 ≠ 0 then x * 2 % 65536 ^^^ poly else x * 2 % 65536

/-- Entry n of the crc16.MakeTable table: eight msbStep rounds
applied to n shifted left by eight bits. -/
def tableEntry (poly n : Nat) : Nat :=
  msbStep poly (msbStep poly (msbStep poly (msbStep poly
    (msbStep poly (msbStep poly (msbStep poly (msbStep poly (n * 256))))))))

/-- One byte of crc16.Update: reflect the input byte when RefIn is
set, then crc becomes crc shifted left eight bits (mod 65536) xored
with the table entry indexed by the high crc byte xor the data
byte. -/
def crcUpdate (p : CrcParams) (crc d : Nat) : Nat :=
  crc * 256 % 65536 ^^^
    tableEntry p.poly (crc / 256 % 256 ^^^ (if p.refIn then rev8 d else d))

/-- crc16.Checksum: start from Init, run Update over the data, then
Complete (reflect the output when RefOut is set, and xor XorOut). -/
def crcChecksum (p : CrcParams) (data : List Nat) : Nat :=
  let final := data.foldl (crcUpdate p) p.init
  if p.refOut then rev16 final ^^^ p.xorOut else final ^^^ p.xorOut

/-- Parameter record crc16.CRC16_MODBUS of the sigurn library:
polynomial 0x8005, initial value 0xFFFF, reflected input and output,
no final xor. -/
def CRC16_MODBUS : CrcParams := ⟨0x8005, 0xFFFF, true, true, 0x0000⟩

/-- Parameters of the zero value of the Go struct crc16.Table, which
send.go and receive.go pass to crc16.Checksum via a pointer to an
empty composite literal.  With a zero polynomial every computed table
entry is zero, so the computed table coincides with the zero data
array of the Go struct. -/
def zeroTableParams : CrcParams := ⟨0, 0, false, false, 0⟩

/-- calculateCRC16 as defined in serialcomm/utils.go and
serialJson/send/send.go: crc16.Checksum with the CRC16_MODBUS
table. -/
def calculateCRC16 (data : List Nat) : Nat := crcChecksum CRC16_MODBUS data

/-- calculateCRC16 as defined in src/send/send.go and
src/receive/receive.go: crc16.Checksum with the zero-valued table. -/
def calculateCRC16zt (data : List Nat) : Nat := crcChecksum zeroTableParams data

theorem msbStep_lt {poly : Nat} (hp : poly < 65536) (x : Nat) : msbStep poly x < 65536 := by
  have hm : x * 2 % 65536 < 65536 := Nat.mod_lt _ (by omega)
  unfold msbStep
  split
  case isTrue h => exact xor_lt_65536 hm hp
  case isFalse h => exact hm

theorem tableEntry_lt {poly : Nat} (hp : poly < 65536) (n : Nat) :
    tableEntry poly n < 65536 := msbStep_lt hp _

theorem crcUpdate_lt {p : CrcParams} (hp : p.poly < 65536) (crc d : Nat) :
    crcUpdate p crc d < 65536 := by
  have h1 : crc * 256 % 65536 < 65536 := Nat.mod_lt _ (by omega)
  exact xor_lt_65536 h1 (tableEntry_lt hp _)

theorem calculateCRC16_lt (data : List Nat) : calculateCRC16 data < 65536 := by
  unfold calculateCRC16 crcChecksum CRC16_MODBUS
  simp only
  have h := rev16_lt (data.foldl (crcUpdate ⟨0x8005, 0xFFFF, true, true, 0x0000⟩) 0xFFFF)
  simpa using h

theorem msbStep_zero (x : Nat) : msbStep 0 x = x * 2 % 65536 := by
  unfold msbStep
  split <;> simp

theorem tableEntry_zero (n : Nat) : tableEntry 0 n = 0 := by
  simp only [tableEntry, msbStep_zero]
  omega

theorem crcUpdate_zeroTable (crc d : Nat) :
    crcUpdate zeroTableParams crc d = crc * 256 % 65536 := by
  simp [crcUpdate, zeroTableParams, tableEntry_zero]

/-- With the zero-valued table, the running crc stays zero, so the
checksum of every input is zero. -/
theorem calculateCRC16zt_eq_zero (data : List Nat) : calculateCRC16zt data = 0 := by
  have hfold : data.foldl (crcUpdate zeroTableParams) 0 = 0 := by
    induction data with
    | nil => rfl
    | cons d t ih =>
      have hstep : crcUpdate zeroTableParams 0 d = 0 := by
        rw [crcUpdate_zeroTable]
      simpa [hstep] using ih
  simp only [zeroTableParams] at hfold
  simp [calculateCRC16zt, crcChecksum, zeroTableParams, hfold]

/-! Canonical CRC-16/MODBUS, written from the specification words:
polynomial 0x8005 in its reflected form 0xA001, initial value 0xFFFF,
least-significant-bit-first processing, no final xor.  This is the
published catalogue definition, independent of the table-driven
implementation above. -/

/-- One polynomial-division step of the reflected algorithm: shift
right one bit and xor 0xA001 when the dropped bit was set. -/
def lsbStep (x : Nat) : Nat := x / 2 ^^^ x % 2 * 0xA001

/-- Eight lsbStep rounds. -/
def lsb8 (x : Nat) : Nat :=
  lsbStep (lsbStep (lsbStep (lsbStep (lsbStep (lsbStep (lsbStep (lsbStep x)))))))

/-- Canonical byte round: xor the data byte into the low bits of the
running value, then run eight division steps. -/
def crcModbusStep (c d : Nat) : Nat := lsb8 (c ^^^ d)

/-- Canonical CRC-16/MODBUS of a byte sequence. -/
def crcModbus (data : List Nat) : Nat := data.foldl crcModbusStep 0xFFFF

/-! Specialisations of the generic xor lemmas to the byte radix. -/

theorem div256_xor (a b : Nat) : (a ^^^ b) / 256 = a / 256 ^^^ b / 256 := by
  have h := div_pow_xor 8 a b
  norm_num at h
  exact h

theorem mul256_xor (a b : Nat) : (a ^^^ b) * 256 = a * 256 ^^^ b * 256 := by
  have h := mul_pow_xor 8 a b
  norm_num at h
  exact h

theorem mod65536_xor (a b : Nat) : (a ^^^ b) % 65536 = a % 65536 ^^^ b % 65536 := by
  have h := mod_two_pow_xor 16 a b
  norm_num at h
  exact h

theorem add_byte_eq_xor (h l : Nat) (hl : l < 256) : 256 * h + l = 256 * h ^^^ l := by
  have hx := add_digit_eq_xor 8 h l (by norm_num at hl ⊢; omega)
  norm_num at hx
  exact hx

theorem xor_byte_digit (h₁ l₁ h₂ l₂ : Nat) (hl₁ : l₁ < 256) (hl₂ : l₂ < 256) :
    (256 * h₁ + l₁) ^^^ (256 * h₂ + l₂) = 256 * (h₁ ^^^ h₂) + (l₁ ^^^ l₂) := by
  have hx := xor_digit 8 h₁ l₁ h₂ l₂ (by norm_num at hl₁ ⊢; omega) (by norm_num at hl₂ ⊢; omega)
  norm_num at hx
  exact hx

theorem rev16_digits (h l : Nat) (hh : h < 256) (hl : l < 256) :
    rev16 (256 * h + l) = 256 * rev8 l + rev8 h := by
  unfold rev16
  have e1 : (256 * h + l) % 256 = l := by omega
  have e2 : (256 * h + l) / 256 % 256 = h := by omega
  rw [e1, e2]

/-! The canonical algorithm is linear over exclusive or. -/

theorem xor_left_comm (a b c : Nat) : a ^^^ (b ^^^ c) = b ^^^ (a ^^^ c) := by
  rw [← Nat.xor_assoc, Nat.xor_comm a b, Nat.xor_assoc]

theorem lsbStep_xor (a b : Nat) : lsbStep (a ^^^ b) = lsbStep a ^^^ lsbStep b := by
  unfold lsbStep
  rw [Nat.xor_div_two, mod_two_xor]
  rcases Nat.mod_two_eq_zero_or_one a with h1 | h1 <;>
    rcases Nat.mod_two_eq_zero_or_one b with h2 | h2 <;>
    simp [h1, h2, Nat.xor_assoc, Nat.xor_comm, xor_left_comm,
      Nat.xor_cancel_left, Nat.xor_cancel_right]

theorem lsb8_xor (a b : Nat) : lsb8 (a ^^^ b) = lsb8 a ^^^ lsb8 b := by
  simp only [lsb8, lsbStep_xor]

theorem lsbStep_double (y : Nat) : lsbStep (2 * y) = y := by
  unfold lsbStep
  simp [Nat.mul_div_cancel_left, Nat.mul_mod_right]

theorem lsb8_mul256 (a : Nat) : lsb8 (256 * a) = a := by
  have h : (256 : Nat) * a = 2 * (2 * (2 * (2 * (2 * (2 * (2 * (2 * a))))))) := by ring
  rw [h]
  simp only [lsb8, lsbStep_double]

theorem lsb8_digit (a b : Nat) (hb : b < 256) : lsb8 (256 * a + b) = a ^^^ lsb8 b := by
  rw [add_byte_eq_xor a b hb, lsb8_xor, lsb8_mul256]

/-! The table-driven computation is linear over exclusive or as
well. -/

theorem msbStep_xor (poly a b : Nat) :
    msbStep poly (a ^^^ b) = msbStep poly a ^^^ msbStep poly b := by
  have h15 : (0x8000 : Nat) = 2 ^ 15 := by norm_num
  have hc : (a ^^^ b) &&& 0x8000 = (a &&& 0x8000) ^^^ (b &&& 0x8000) :=
    Nat.and_xor_distrib_right
  have hdist : (a ^^^ b) * 2 % 65536 = a * 2 % 65536 ^^^ b * 2 % 65536 := by
    have h1 := mul_pow_xor 1 a b
    have h2 := mod65536_xor (a * 2) (b * 2)
    norm_num at h1
    rw [h1, h2]
  have hval : ∀ x : Nat, x &&& 0x8000 ≠ 0 → x &&& 0x8000 = 0x8000 := by
    intro x hx
    have hq := Nat.and_two_pow x 15
    rw [← h15] at hq
    cases htb : x.testBit 15 with
    | false => rw [htb] at hq; simp at hq; exact absurd hq hx
    | true => rw [htb] at hq; simpa using hq
  unfold msbStep
  by_cases h1 : a &&& 0x8000 = 0 <;> by_cases h2 : b &&& 0x8000 = 0
  · simp [hc, h1, h2, hdist]
  · have hv2 := hval b h2
    simp [hc, h1, hv2, hdist, Nat.xor_assoc, Nat.xor_comm, xor_left_comm,
      Nat.xor_cancel_left, Nat.xor_cancel_right]
  · have hv1 := hval a h1
    simp [hc, hv1, h2, hdist, Nat.xor_assoc, Nat.xor_comm, xor_left_comm,
      Nat.xor_cancel_left, Nat.xor_cancel_right]
  · have hv1 := hval a h1
    have hv2 := hval b h2
    simp [hc, hv1, hv2, hdist, Nat.xor_assoc, Nat.xor_comm, xor_left_comm,
      Nat.xor_cancel_left, Nat.xor_cancel_right]

theorem tableEntry_xor (poly a b : Nat) :
    tableEntry poly (a ^^^ b) = tableEntry poly a ^^^ tableEntry poly b := by
  have hm : (a ^^^ b) * 256 = a * 256 ^^^ b * 256 := mul256_xor a b
  simp only [tableEntry, hm, msbStep_xor]

/-- Finite core of the equivalence: the bit-reversal of each MODBUS
table entry is the canonical eight-round reduction of the reversed
index. -/
theorem tableEntry_rev : ∀ n < 256, rev16 (tableEntry 0x8005 n) = lsb8 (rev8 n) := by decide

/-- One crc16.Update round with the MODBUS table, seen through the
output reflection, is one canonical CRC-16/MODBUS byte round. -/
theorem crcUpdate_modbus_rev (s d : Nat) (hs : s < 65536) (hd : d < 256) :
    rev16 (crcUpdate CRC16_MODBUS s d) = crcModbusStep (rev16 s) d := by
  have hsl : s % 256 < 256 := Nat.mod_lt _ (by omega)
  have hsh : s / 256 < 256 := by omega
  have hshm : s / 256 % 256 = s / 256 := Nat.mod_eq_of_lt hsh
  have hn : s / 256 ^^^ rev8 d < 256 := xor_lt_256 hsh (rev8_lt d)
  have ht : tableEntry 0x8005 (s / 256 ^^^ rev8 d) < 65536 := tableEntry_lt (by norm_num) _
  have hA : s * 256 % 65536 = 256 * (s % 256) := by omega
  have hup : crcUpdate CRC16_MODBUS s d =
      256 * (s % 256) ^^^ tableEntry 0x8005 (s / 256 ^^^ rev8 d) := by
    simp only [crcUpdate, CRC16_MODBUS]
    rw [hshm, hA]
    simp
  have hts := (Nat.div_add_mod (tableEntry 0x8005 (s / 256 ^^^ rev8 d)) 256).symm
  have hth : tableEntry 0x8005 (s / 256 ^^^ rev8 d) / 256 < 256 := by omega
  have htl : tableEntry 0x8005 (s / 256 ^^^ rev8 d) % 256 < 256 := Nat.mod_lt _ (by omega)
  have hlhs : rev16 (crcUpdate CRC16_MODBUS s d) =
      256 * rev8 (tableEntry 0x8005 (s / 256 ^^^ rev8 d) % 256) +
        (rev8 (s % 256) ^^^ rev8 (tableEntry 0x8005 (s / 256 ^^^ rev8 d) / 256)) := by
    rw [hup]
    conv_lhs => rw [hts]
    have hz : 256 * (s % 256) ^^^
        (256 * (tableEntry 0x8005 (s / 256 ^^^ rev8 d) / 256) +
          tableEntry 0x8005 (s / 256 ^^^ rev8 d) % 256) =
        256 * ((s % 256) ^^^ tableEntry 0x8005 (s / 256 ^^^ rev8 d) / 256) +
          (0 ^^^ tableEntry 0x8005 (s / 256 ^^^ rev8 d) % 256) := by
      have hx := xor_byte_digit (s % 256) 0 (tableEntry 0x8005 (s / 256 ^^^ rev8 d) / 256)
        (tableEntry 0x8005 (s / 256 ^^^ rev8 d) % 256) (by omega) htl
      simpa using hx
    rw [hz]
    simp only [Nat.zero_xor]
    rw [rev16_digits _ _ (xor_lt_256 hsl hth) htl, rev8_xor]
  have hrs : rev16 s = 256 * rev8 (s % 256) + rev8 (s / 256) := by
    unfold rev16
    rw [hshm]
  have hrhs : crcModbusStep (rev16 s) d =
      rev8 (s % 256) ^^^ lsb8 (rev8 (s / 256) ^^^ d) := by
    unfold crcModbusStep
    rw [hrs]
    have hz : (256 * rev8 (s % 256) + rev8 (s / 256)) ^^^ d =
        256 * (rev8 (s % 256) ^^^ 0) + (rev8 (s / 256) ^^^ d) := by
      have hx := xor_byte_digit (rev8 (s % 256)) (rev8 (s / 256)) 0 d (rev8_lt _) hd
      simpa using hx
    rw [hz]
    simp only [Nat.xor_zero]
    exact lsb8_digit _ _ (xor_lt_256 (rev8_lt _) hd)
  have hkey : lsb8 (rev8 (s / 256) ^^^ d) =
      256 * rev8 (tableEntry 0x8005 (s / 256 ^^^ rev8 d) % 256) +
        rev8 (tableEntry 0x8005 (s / 256 ^^^ rev8 d) / 256) := by
    have he : rev8 (s / 256) ^^^ d = rev8 (s / 256 ^^^ rev8 d) := by
      rw [rev8_xor, rev8_rev8 d hd]
    rw [he, ← tableEntry_rev _ hn]
    conv_lhs => rw [hts]
    exact rev16_digits _ _ hth htl
  rw [hlhs, hrhs, hkey]
  have hx := xor_byte_digit 0 (rev8 (s % 256))
    (rev8 (tableEntry 0x8005 (s / 256 ^^^ rev8 d) % 256))
    (rev8 (tableEntry 0x8005 (s / 256 ^^^ rev8 d) / 256)) (rev8_lt _) (rev8_lt _)
  simp only [Nat.mul_zero, Nat.zero_add, Nat.zero_xor] at hx
  rw [hx]

theorem crcFold_modbus_rev :
    ∀ data : List Nat, (∀ b ∈ data, b < 256) → ∀ s, s < 65536 →
      rev16 (data.foldl (crcUpdate CRC16_MODBUS) s) = data.foldl crcModbusStep (rev16 s) := by
  intro data
  induction data with
  | nil => intro _ s _; simp
  | cons d t ih =>
    intro hbytes s hs
    have hd : d < 256 := hbytes d (by simp)
    have hbytes' : ∀ b ∈ t, b < 256 := fun b hb => hbytes b (by simp [hb])
    have hs' : crcUpdate CRC16_MODBUS s d < 65536 := crcUpdate_lt (by decide) s d
    rw [List.foldl_cons, List.foldl_cons, ih hbytes' _ hs', crcUpdate_modbus_rev s d hs hd]

/-- calculateCRC16 of serialcomm/utils.go computes exactly the
canonical CRC-16/MODBUS on byte inputs. -/
theorem calculateCRC16_eq_crcModbus (data : List Nat) (hbytes : ∀ b ∈ data, b < 256) :
    calculateCRC16 data = crcModbus data := by
  have h := crcFold_modbus_rev data hbytes 0xFFFF (by norm_num)
  have hr : rev16 0xFFFF = 0xFFFF := by decide
  rw [hr] at h
  unfold calculateCRC16 crcChecksum
  simp only [CRC16_MODBUS] at h ⊢
  simpa using h

/-- Standard check value of CRC-16/MODBUS: the checksum of the ASCII
digits one to nine is 0x4B37, both for the table-driven
implementation and for the canonical definition. -/
theorem calculateCRC16_check :
    calculateCRC16 [49, 50, 51, 52, 53, 54, 55, 56, 57] = 0x4B37 ∧
      crcModbus [49, 50, 51, 52, 53, 54, 55, 56, 57] = 0x4B37 := by
  constructor <;> decide

/-! Single-bit error detection for the MODBUS checksum. -/

theorem mod256_xor (a b : Nat) : (a ^^^ b) % 256 = a % 256 ^^^ b % 256 := by
  have h := mod_two_pow_xor 8 a b
  norm_num at h
  exact h

theorem xor_rearrange (a b x y : Nat) (h : a ^^^ x = b ^^^ y) : a ^^^ b = x ^^^ y := by
  have h1 : a ^^^ b = (a ^^^ x) ^^^ (x ^^^ b) := by
    rw [Nat.xor_assoc, Nat.xor_cancel_left]
  rw [h1, h, Nat.xor_comm x b, Nat.xor_assoc, xor_left_comm y b x, Nat.xor_cancel_left]
  exact Nat.xor_comm y x

theorem xor_pair_cancel (b u v : Nat) : (b ^^^ u) ^^^ (b ^^^ v) = u ^^^ v := by
  rw [Nat.xor_assoc, xor_left_comm u b v, Nat.xor_cancel_left]

theorem tableEntry_modbus_mod : ∀ n < 256, n ≠ 0 → tableEntry 0x8005 n % 256 ≠ 0 := by decide

theorem tableEntry_modbus_zero : tableEntry 0x8005 0 = 0 := by decide

theorem crcUpdate_modbus_def (s d : Nat) :
    crcUpdate CRC16_MODBUS s d =
      s * 256 % 65536 ^^^ tableEntry 0x8005 (s / 256 % 256 ^^^ rev8 d) := by
  simp [crcUpdate, CRC16_MODBUS]

/-- One MODBUS update round is injective in the running crc. -/
theorem crcUpdate_modbus_inj (d s1 s2 : Nat) (h1 : s1 < 65536) (h2 : s2 < 65536)
    (hne : s1 ≠ s2) : crcUpdate CRC16_MODBUS s1 d ≠ crcUpdate CRC16_MODBUS s2 d := by
  intro heq
  rw [crcUpdate_modbus_def, crcUpdate_modbus_def] at heq
  have hkey := xor_rearrange _ _ _ _ heq
  have hL : s1 * 256 % 65536 ^^^ s2 * 256 % 65536 = (s1 ^^^ s2) % 256 * 256 := by
    rw [← mod65536_xor, ← mul256_xor]
    omega
  have hidx : (s1 / 256 % 256 ^^^ rev8 d) ^^^ (s2 / 256 % 256 ^^^ rev8 d) =
      (s1 ^^^ s2) / 256 := by
    have hp : (s1 / 256 % 256 ^^^ rev8 d) ^^^ (s2 / 256 % 256 ^^^ rev8 d) =
        s1 / 256 % 256 ^^^ s2 / 256 % 256 := by
      rw [Nat.xor_comm (s1 / 256 % 256) (rev8 d), Nat.xor_comm (s2 / 256 % 256) (rev8 d)]
      exact xor_pair_cancel _ _ _
    rw [hp, ← mod256_xor, ← div256_xor]
    have hd : (s1 ^^^ s2) < 65536 := xor_lt_65536 h1 h2
    omega
  have hR : tableEntry 0x8005 (s1 / 256 % 256 ^^^ rev8 d) ^^^
      tableEntry 0x8005 (s2 / 256 % 256 ^^^ rev8 d) = tableEntry 0x8005 ((s1 ^^^ s2) / 256) := by
    rw [← tableEntry_xor, hidx]
  rw [hL, hR] at hkey
  have hΔ : s1 ^^^ s2 ≠ 0 := fun h0 => hne (Nat.xor_eq_zero.mp h0)
  have hΔlt : s1 ^^^ s2 < 65536 := xor_lt_65536 h1 h2
  by_cases hh : (s1 ^^^ s2) / 256 = 0
  · rw [hh, tableEntry_modbus_zero] at hkey
    omega
  · have hhlt : (s1 ^^^ s2) / 256 < 256 := by omega
    have hmod := tableEntry_modbus_mod _ hhlt hh
    have hz : (s1 ^^^ s2) % 256 * 256 % 256 = 0 := Nat.mul_mod_left _ _
    rw [← hkey] at hmod
    exact hmod hz

/-- One MODBUS update round distinguishes a data byte from the same
byte with one bit flipped. -/
theorem crcUpdate_modbus_flip_ne (s d k : Nat) (hk : k < 8) :
    crcUpdate CRC16_MODBUS s d ≠ crcUpdate CRC16_MODBUS s (d ^^^ 2 ^ k) := by
  intro heq
  rw [crcUpdate_modbus_def, crcUpdate_modbus_def] at heq
  have hT := Nat.xor_right_inj.mp heq
  have hTx : tableEntry 0x8005 (s / 256 % 256 ^^^ rev8 d) ^^^
      tableEntry 0x8005 (s / 256 % 256 ^^^ rev8 (d ^^^ 2 ^ k)) = 0 := by
    rw [hT, Nat.xor_self]
  rw [← tableEntry_xor, xor_pair_cancel, rev8_xor, Nat.xor_cancel_left,
    rev8_two_pow k hk] at hTx
  have hlt : 2 ^ (7 - k) < 256 := by
    have h7 : 7 - k ≤ 7 := by omega
    have := Nat.pow_le_pow_right (show 0 < 2 by omega) h7
    omega
  have hne0 : (2 : Nat) ^ (7 - k) ≠ 0 := Nat.pos_iff_ne_zero.mp (Nat.pos_pow_of_pos _ (by omega))
  have hmod := tableEntry_modbus_mod _ hlt hne0
  rw [hTx] at hmod
  simp at hmod

theorem crcFold_modbus_ne :
    ∀ (rest : List Nat) (s1 s2 : Nat), s1 < 65536 → s2 < 65536 → s1 ≠ s2 →
      rest.foldl (crcUpdate CRC16_MODBUS) s1 ≠ rest.foldl (crcUpdate CRC16_MODBUS) s2 := by
  intro rest
  induction rest with
  | nil => intro s1 s2 _ _ hne; simpa using hne
  | cons d t ih =>
    intro s1 s2 h1 h2 hne
    rw [List.foldl_cons, List.foldl_cons]
    exact ih _ _ (crcUpdate_lt (by decide) _ _) (crcUpdate_lt (by decide) _ _)
      (crcUpdate_modbus_inj d s1 s2 h1 h2 hne)

theorem crcFold_modbus_lt (l : List Nat) : ∀ s, s < 65536 →
    l.foldl (crcUpdate CRC16_MODBUS) s < 65536 := by
  induction l with
  | nil => intro s hs; simpa using hs
  | cons d t ih =>
    intro s hs
    rw [List.foldl_cons]
    exact ih _ (crcUpdate_lt (by decide) _ _)

theorem rev16_inj (x y : Nat) (hx : x < 65536) (hy : y < 65536) (h : rev16 x = rev16 y) :
    x = y := by
  unfold rev16 at h
  have b1 := rev8_lt (x / 256 % 256)
  have b2 := rev8_lt (y / 256 % 256)
  have e1 : rev8 (x % 256) = rev8 (y % 256) := by omega
  have e2 : rev8 (x / 256 % 256) = rev8 (y / 256 % 256) := by omega
  have m1 : x % 256 = y % 256 := by
    have r1 := rev8_rev8 (x % 256) (Nat.mod_lt _ (by omega))
    have r2 := rev8_rev8 (y % 256) (Nat.mod_lt _ (by omega))
    rw [← r1, ← r2, e1]
  have m2 : x / 256 % 256 = y / 256 % 256 := by
    have r1 := rev8_rev8 (x / 256 % 256) (Nat.mod_lt _ (by omega))
    have r2 := rev8_rev8 (y / 256 % 256) (Nat.mod_lt _ (by omega))
    rw [← r1, ← r2, e2]
  omega

/-- Flipping any single bit of any byte of the input changes the
MODBUS checksum computed by calculateCRC16. -/
theorem calculateCRC16_flip_ne (P : List Nat) (i k : Nat) (hi : i < P.length) (hk : k < 8) :
    calculateCRC16 (P.set i (P.getD i 0 ^^^ 2 ^ k)) ≠ calculateCRC16 P := by
  have hgd : P.getD i 0 = P[i] := List.getD_eq_getElem P 0 hi
  have hset : P.set i (P.getD i 0 ^^^ 2 ^ k) =
      P.take i ++ (P.getD i 0 ^^^ 2 ^ k) :: P.drop (i + 1) :=
    List.set_eq_take_cons_drop _ hi
  have horig : P = P.take i ++ P.getD i 0 :: P.drop (i + 1) := by
    conv_lhs => rw [← List.take_append_drop i P]
    rw [List.drop_eq_getElem_cons hi, hgd]
  intro heq
  unfold calculateCRC16 crcChecksum at heq
  simp only [CRC16_MODBUS] at heq
  simp only [Nat.xor_zero] at heq
  rw [hset] at heq
  conv_rhs at heq => rw [horig]
  rw [List.foldl_append, List.foldl_append, List.foldl_cons, List.foldl_cons] at heq
  have hu : (P.take i).foldl (crcUpdate ⟨0x8005, 0xFFFF, true, true, 0x0000⟩) 0xFFFF < 65536 := by
    have h := crcFold_modbus_lt (P.take i) 0xFFFF (by norm_num)
    simpa [CRC16_MODBUS] using h
  have hne := crcUpdate_modbus_flip_ne
    ((P.take i).foldl (crcUpdate ⟨0x8005, 0xFFFF, true, true, 0x0000⟩) 0xFFFF)
    (P.getD i 0) k hk
  have hfoldne := crcFold_modbus_ne (P.drop (i + 1)) _ _
    (crcUpdate_lt (by decide) _ _) (crcUpdate_lt (by decide) _ _) (Ne.symm hne)
  simp only [CRC16_MODBUS] at hfoldne
  have hlt1 : (P.drop (i + 1)).foldl (crcUpdate ⟨0x8005, 0xFFFF, true, true, 0x0000⟩)
      (crcUpdate ⟨0x8005, 0xFFFF, true, true, 0x0000⟩
        ((P.take i).foldl (crcUpdate ⟨0x8005, 0xFFFF, true, true, 0x0000⟩) 0xFFFF)
        (P.getD i 0 ^^^ 2 ^ k)) < 65536 := by
    have h := crcFold_modbus_lt (P.drop (i + 1))
      (crcUpdate CRC16_MODBUS
        ((P.take i).foldl (crcUpdate CRC16_MODBUS) 0xFFFF) (P.getD i 0 ^^^ 2 ^ k))
      (crcUpdate_lt (by decide) _ _)
    simpa [CRC16_MODBUS] using h
  have hlt2 : (P.drop (i + 1)).foldl (crcUpdate ⟨0x8005, 0xFFFF, true, true, 0x0000⟩)
      (crcUpdate ⟨0x8005, 0xFFFF, true, true, 0x0000⟩
        ((P.take i).foldl (crcUpdate ⟨0x8005, 0xFFFF, true, true, 0x0000⟩) 0xFFFF)
        (P.getD i 0)) < 65536 := by
    have h := crcFold_modbus_lt (P.drop (i + 1))
      (crcUpdate CRC16_MODBUS
        ((P.take i).foldl (crcUpdate CRC16_MODBUS) 0xFFFF) (P.getD i 0))
      (crcUpdate_lt (by decide) _ _)
    simpa [CRC16_MODBUS] using h
  exact hfoldne (rev16_inj _ _ hlt1 hlt2 heq)

/-! Application data model, as declared identically in
serialcomm/message.go, send.go and receive.go.  All fields are opaque
to the framing layer. -/

structure Reading where
  id : String
  origin : Int
  deviceName : String
  resourceName : String
  profileName : String
  valueType : String
  value : String
deriving Repr, DecidableEq

structure Event where
  apiVersion : String
  id : String
  deviceName : String
  profileName : String
  sourceName : String
  origin : Int
  readings : List Reading
deriving Repr, DecidableEq

structure Payload where
  apiVersion : String
  requestID : String
  event : Event
deriving Repr, DecidableEq

structure Message where
  apiVersion : String
  receivedTopic : String
  correlationID : String
  requestID : String
  errorCode : Int
  payload : String
  contentType : String
deriving Repr, DecidableEq

/-- Abstract model of json.Unmarshal of a byte packet into a Message:
the encoding json library is an external collaborator, so the
receiver models are parameterised over the partial decoding function
it implements (none models a returned error). -/
abbrev MsgDecoder := List Nat → Option Message

/-- Abstract model of base64.StdEncoding.DecodeString applied to the
payload field of a Message followed by json.Unmarshal into a Payload
document, the two steps receiver.go runs after a successful Message
decode (none models an error in either step). -/
abbrev PayDecoder := String → Option Payload

/-- Feedback tokens of the protocol, written to the port as the ASCII
strings OK and RETRY. -/
inductive Tok where
  | ok
  | retry
deriving Repr, DecidableEq

/-- Classification of what one loop iteration of the serialcomm
receiver did, used to state the terminal-transition claims. -/
inductive Trans where
  | progress
  | invalidLength
  | crcMismatch
  | msgDecodeFail
  | payloadDecodeFail
  | accept
  | idleReset
  | idleNoop
deriving Repr, DecidableEq

/-- Protocol state owned by the receiver loop: the reassembly buffer
and expectedLength.  In the Go sources expectedLength is a uint32
whose zero value doubles as the unset marker. -/
structure RecvState where
  buffer : List Nat
  expectedLength : Nat
deriving Repr, DecidableEq

/-- Result of one loop iteration: successor state, feedback tokens
written, callback deliveries made, and the transition taken. -/
structure StepOut where
  st : RecvState
  toks : List Tok
  dels : List (Message × Payload)
  tag : Trans
deriving Repr, DecidableEq

/-- Payload part of one iteration of serialcomm/receiver.go Start
(lines 90-133): when expectedLength is set and the buffer holds the
payload plus two checksum bytes, consume them, compare checksums,
decode the Message, base64-decode and decode its payload document,
then deliver and acknowledge.  On checksum or Message-decode failure
the buffer is reset, expectedLength unset and RETRY written; on a
payload-document failure the iteration just continues, leaving the
remaining buffer and expectedLength in place and writing nothing. -/
def payloadPhase (dm : MsgDecoder) (dp : PayDecoder) (s : RecvState) : StepOut :=
  if 0 < s.expectedLength ∧ s.expectedLength + 2 ≤ s.buffer.length then
    let dataPacket := s.buffer.take s.expectedLength
    let rest1 := s.buffer.drop s.expectedLength
    if be16 (rest1.take 2) ≠ calculateCRC16 dataPacket then
      ⟨⟨[], 0⟩, [.retry], [], .crcMismatch⟩
    else
      match dm dataPacket with
      | none => ⟨⟨[], 0⟩, [.retry], [], .msgDecodeFail⟩
      | some m =>
        match dp m.payload with
        | none => ⟨⟨rest1.drop 2, s.expectedLength⟩, [], [], .payloadDecodeFail⟩
        | some p => ⟨⟨[], 0⟩, [.ok], [(m, p)], .accept⟩
  else ⟨s, [], [], .progress⟩

/-- One loop iteration of serialcomm/receiver.go Start on a read that
returned the bytes chunk (lines 76-133): append to the buffer; if
expectedLength is unset and four bytes are available, consume them as
the big-endian length and validate it against MaxLength, resetting
and writing RETRY when invalid; then attempt the payload phase in the
same iteration. -/
def feedStep (dm : MsgDecoder) (dp : PayDecoder) (maxLen : Nat) (s : RecvState)
    (chunk : List Nat) : StepOut :=
  let buf := s.buffer ++ chunk
  if s.expectedLength = 0 ∧ 4 ≤ buf.length then
    let lenVal := be32 (buf.take 4)
    if maxLen < lenVal ∨ lenVal = 0 then ⟨⟨[], 0⟩, [.retry], [], .invalidLength⟩
    else payloadPhase dm dp ⟨buf.drop 4, lenVal⟩
  else payloadPhase dm dp ⟨buf, s.expectedLength⟩

/-- One loop iteration of serialcomm/receiver.go Start on a read that
returned zero bytes (lines 66-74): when the inactivity timeout has
elapsed (elapsed models time.Since(lastDataTime) > timeout) and the
buffer is nonempty, reset the state and write RETRY. -/
def idleStep (s : RecvState) (elapsed : Bool) : StepOut :=
  if elapsed ∧ s.buffer ≠ [] then ⟨⟨[], 0⟩, [.retry], [], .idleReset⟩
  else ⟨s, [], [], .idleNoop⟩

/-- Run of the serialcomm receiver from a given state and output
accumulator over a list of byte chunks, each chunk one port read. -/
def runFrom (dm : MsgDecoder) (dp : PayDecoder) (maxLen : Nat)
    (acc : RecvState × List Tok × List (Message × Payload)) (chunks : List (List Nat)) :
    RecvState × List Tok × List (Message × Payload) :=
  chunks.foldl
    (fun a c =>
      let o := feedStep dm dp maxLen a.1 c
      (o.st, a.2.1 ++ o.toks, a.2.2 ++ o.dels))
    acc

/-- Run of a fresh serialcomm receiver over a list of byte chunks. -/
def runChunks (dm : MsgDecoder) (dp : PayDecoder) (maxLen : Nat)
    (chunks : List (List Nat)) : RecvState × List Tok × List (Message × Payload) :=
  runFrom dm dp maxLen (⟨[], 0⟩, [], []) chunks

/-- Send of serialcomm/sender.go: a single write of the big-endian
4-byte length, the data, and the big-endian MODBUS checksum.  No
terminator byte is written. -/
def serialcommSendBytes (data : List Nat) : List Nat :=
  be32bytes data.length ++ data ++ be16bytes (calculateCRC16 data)

/-- Fixed-size splitting into chunks of twenty bytes used by the
chunked send loop of sendData. -/
def chunksOf20 (l : List Nat) : List (List Nat) :=
  match l with
  | [] => []
  | x :: xs => (x :: xs).take 20 :: chunksOf20 ((x :: xs).drop 20)
termination_by l.length
decreasing_by simp; omega

theorem chunksOf20_flatten (l : List Nat) : (chunksOf20 l).flatten = l := by
  have key : ∀ n : Nat, ∀ l : List Nat, l.length ≤ n → (chunksOf20 l).flatten = l := by
    intro n
    induction n with
    | zero =>
      intro l hl
      have h0 : l = [] := List.eq_nil_of_length_eq_zero (by omega)
      subst h0
      simp [chunksOf20]
    | succ n ih =>
      intro l hl
      match l with
      | [] => simp [chunksOf20]
      | x :: xs =>
        rw [chunksOf20]
        rw [List.flatten_cons]
        have hlen : ((x :: xs).drop 20).length ≤ n := by
          simp only [List.length_drop, List.length_cons] at *
          omega
        rw [ih _ hlen, List.take_append_drop]
  exact key l.length l le_rfl

/-- Byte sequence written by sendData of src/send/send.go: the 4-byte
big-endian length, the payload written in chunks of twenty bytes (the
50 ms inter-chunk delay does not change the bytes), the 2-byte
big-endian checksum of the whole unsplit payload computed by its
zero-table calculateCRC16, and the newline terminator. -/
def sendDataBytes (data : List Nat) : List Nat :=
  be32bytes data.length ++ (chunksOf20 data).flatten ++
    be16bytes (calculateCRC16zt data) ++ [10]

/-! Model of src/receive/receive.go main: the same reassembly loop,
with three differences translated from the source: incoming bytes are
filtered to the printable range plus newline before entering the
buffer (lines 100-107), the length prefix is stored without any
validation (lines 110-115), and frame completion additionally
requires a newline somewhere in the buffer, consumed through
bytes.Buffer.ReadBytes after the checksum comparison.  Deliveries
carry only the Message (receive.go decodes no payload document), and
its zero-table checksum is used. -/

/-- Filter of receive.go line 103: keep bytes 32 to 126 and byte
10. -/
def allowedByte (b : Nat) : Bool := (32 ≤ b && b ≤ 126) || b == 10

/-- Result of one receive.go loop iteration. -/
structure ROut where
  st : RecvState
  toks : List Tok
  dels : List Message
deriving Repr, DecidableEq

/-- One loop iteration of receive.go main on a read that returned the
bytes chunk (lines 96-182). -/
def recvStep (dm : MsgDecoder) (s : RecvState) (chunk : List Nat) : ROut :=
  let buf := s.buffer ++ chunk.filter allowedByte
  let s1 : RecvState :=
    if s.expectedLength = 0 ∧ 4 ≤ buf.length then ⟨buf.drop 4, be32 (buf.take 4)⟩
    else ⟨buf, s.expectedLength⟩
  if 0 < s1.expectedLength ∧ s1.expectedLength + 2 ≤ s1.buffer.length ∧ 10 ∈ s1.buffer then
    let dataPacket := s1.buffer.take s1.expectedLength
    let rest1 := s1.buffer.drop s1.expectedLength
    if be16 (rest1.take 2) ≠ calculateCRC16zt dataPacket then
      ⟨⟨[], 0⟩, [.retry], []⟩
    else if 10 ∈ rest1.drop 2 then
      match dm dataPacket with
      | none => ⟨⟨[], 0⟩, [.retry], []⟩
      | some m => ⟨⟨[], 0⟩, [.ok], [m]⟩
    else
      ⟨⟨[], s1.expectedLength⟩, [], []⟩
  else ⟨s1, [], []⟩

/-- One loop iteration of receive.go main on a read that returned
zero bytes (lines 87-94): on timeout the buffer is discarded and
expectedLength unset, and nothing is written to the port. -/
def recvIdleStep (s : RecvState) (elapsed : Bool) : ROut :=
  if elapsed ∧ s.buffer ≠ [] then ⟨⟨[], 0⟩, [], []⟩ else ⟨s, [], []⟩

/-- Run of the receive.go loop from a given state and accumulator. -/
def runRecvFrom (dm : MsgDecoder) (acc : RecvState × List Tok × List Message)
    (chunks : List (List Nat)) : RecvState × List Tok × List Message :=
  chunks.foldl
    (fun a c =>
      let o := recvStep dm a.1 c
      (o.st, a.2.1 ++ o.toks, a.2.2 ++ o.dels))
    acc

/-- Run of a fresh receive.go loop over a list of byte chunks. -/
def runRecvChunks (dm : MsgDecoder) (chunks : List (List Nat)) :
    RecvState × List Tok × List Message :=
  runRecvFrom dm (⟨[], 0⟩, [], []) chunks

/-! Sender retry loops.  The transport is modelled as an oracle
mapping the attempt number to what the feedback read produced. -/

/-- What one feedback read of src/send/send.go main returned: a read
error, or the read content as a string (a timed-out read returns zero
bytes, hence the empty string). -/
inductive Fb where
  | readErr
  | got (s : String)
deriving Repr, DecidableEq

/-- Outcome of a send main loop: success acknowledged by OK, a fatal
exit (log.Fatalf, the DeliveryFailure report), or normal loop
completion without an OK. -/
inductive SendOutcome where
  | okSuccess
  | fatal
  | exhausted
deriving Repr, DecidableEq

/-- Retry loop of src/send/send.go main (lines 138-167), parameter a
the current attempt number, fuel the remaining loop iterations
(attempt runs from 1 while attempt is at most maxRetries = 3), sends
the number of sendData calls made so far.  A read error and the RETRY
token jump to the next iteration; any other non-OK content reaches
the attempt = maxRetries check and is fatal there. -/
def sendGoBody (r : Fb) (a sends : Nat) (cont : Nat × SendOutcome) : Nat × SendOutcome :=
  match r with
  | .readErr => cont
  | .got str =>
    if str = "OK" then (sends + 1, .okSuccess)
    else if str = "RETRY" then cont
    else if a = 3 then (sends + 1, .fatal)
    else cont

def sendGoAux (fb : Nat → Fb) : Nat → Nat → Nat → Nat × SendOutcome
  | _, 0, sends => (sends, .exhausted)
  | a, fuel + 1, sends => sendGoBody (fb a) a sends (sendGoAux fb (a + 1) fuel (sends + 1))

/-- Full run of the src/send/send.go retry loop. -/
def sendGoRun (fb : Nat → Fb) : Nat × SendOutcome := sendGoAux fb 1 3 0

/-- What one readFeedback call of src/serialJson/send/send.go
returned: readFeedback only ever returns the exact token OK, the
exact token RETRY, or an error (timeout included). -/
inductive Fb2 where
  | err
  | okTok
  | retryTok
deriving Repr, DecidableEq

/-- Retry loop of src/serialJson/send/send.go main (lines 169-202):
the attempt = maxRetries check runs at the top of the loop body,
before sendData, and is fatal there; a read error and RETRY continue
with the next attempt. -/
def sjBody (r : Fb2) (a sends : Nat) (cont : Nat × SendOutcome) : Nat × SendOutcome :=
  if a = 3 then (sends, .fatal)
  else
    match r with
    | .err => cont
    | .okTok => (sends + 1, .okSuccess)
    | .retryTok => cont

def sjAux (fb : Nat → Fb2) : Nat → Nat → Nat → Nat × SendOutcome
  | _, 0, sends => (sends, .exhausted)
  | a, fuel + 1, sends => sjBody (fb a) a sends (sjAux fb (a + 1) fuel (sends + 1))

/-- Full run of the src/serialJson/send/send.go retry loop. -/
def sjRun (fb : Nat → Fb2) : Nat × SendOutcome := sjAux fb 1 3 0

/-! Lifecycle of the serialcomm receiver handle. -/

/-- Observable state of a serialReceiverImpl: the started flag and
whether the stop channel has been closed.  NewSerialReceiver creates
the handle with an open channel and started false. -/
structure ReceiverHandle where
  started : Bool
  stopClosed : Bool
deriving Repr, DecidableEq

/-- Whether a Close call returned normally or crashed the program. -/
inductive CloseOutcome where
  | ok
  | crashed
deriving Repr, DecidableEq

/-- Start of serialcomm/receiver.go (line 139): spawns the worker
(abstracted away here) and sets the started flag; it is never
cleared. -/
def startReceiver (h : ReceiverHandle) : ReceiverHandle := ⟨true, h.stopClosed⟩

/-- Close of serialcomm/receiver.go (lines 143-148): when started,
close(s.stopCh).  Modelled from the Go runtime semantics of channel
close: closing an already-closed channel panics; crashed records that
panic, ok records the nil return. -/
def closeReceiver (h : ReceiverHandle) : ReceiverHandle × CloseOutcome :=
  if h.started then
    if h.stopClosed then (h, .crashed) else (⟨h.started, true⟩, .ok)
  else (h, .ok)

/-! Concrete decoder instances used by witnesses and counterexamples.
They instantiate the abstract MsgDecoder and PayDecoder parameters
with small total functions consistent with the documented behaviour
of Go encoding-json and base64 on the inputs they are applied to. -/

/-- A fully decodable message: its payload field decodes to payW
below. -/
def msgW : Message := ⟨"v3", "", "", "", 0, "pay", "application-json"⟩

/-- A payload document for msgW. -/
def payW : Payload := ⟨"v3", "", ⟨"v3", "", "", "", "", 0, []⟩⟩

/-- Message decoder recognising the one-byte packet 65. -/
def dmW : MsgDecoder := fun bs => if bs = [65] then some msgW else none

/-- Payload decoder recognising the payload field of msgW. -/
def dpW : PayDecoder := fun s => if s = "pay" then some payW else none

/-- The seven ASCII bytes of a small JSON object with the single
unknown key a and value 1. -/
def abytes : List Nat := [123, 34, 97, 34, 58, 49, 125]

/-- The Message that Go json.Unmarshal produces for abytes: unknown
object keys are ignored and every field keeps its zero value, so the
packet is a valid Message whose payload field is the empty string. -/
def msgA : Message := ⟨"", "", "", "", 0, "", ""⟩

/-- Message decoder mirroring json.Unmarshal on abytes. -/
def dmA : MsgDecoder := fun bs => if bs = abytes then some msgA else none

/-- Payload decoder mirroring the receiver.go payload steps on the
empty payload field: base64 decoding the empty string yields the
empty byte sequence, and json.Unmarshal of empty input returns an
error, so no input of interest decodes. -/
def dpA : PayDecoder := fun _ => none

/-! Claim C2. -/

/-- C2: the checksum function is pure and deterministic, and the
serialcomm calculateCRC16 computes the CRC-16/MODBUS parameterization
on byte inputs; but not every encode and decode path in the
repository uses this algorithm: the calculateCRC16 of src/send/send.go
and src/receive/receive.go passes a zero-valued table to
crc16.Checksum, which yields the constant 0 on every input and
disagrees with CRC-16/MODBUS already on the one-byte input 49. -/
theorem claim_c2_crc_paths :
    (∀ data : List Nat, calculateCRC16zt data = 0) ∧
    (∀ data : List Nat, (∀ b ∈ data, b < 256) → calculateCRC16 data = crcModbus data) ∧
    calculateCRC16 [49] = 38014 ∧
    calculateCRC16zt [49] = 0 ∧
    calculateCRC16 [49] ≠ calculateCRC16zt [49] :=
  ⟨calculateCRC16zt_eq_zero, calculateCRC16_eq_crcModbus, by decide, by decide, by decide⟩

/-- Witness for C2 at the concrete input 49. -/
theorem claim_c2_witness : calculateCRC16 [49] = crcModbus [49] :=
  claim_c2_crc_paths.2.1 [49] (by decide)

/-! Claim C4. -/

/-- C4: after every terminal transition of the serialcomm receiver
(successful accept, invalid length, checksum mismatch, Message decode
failure, inactivity timeout) the buffer is empty and expectedLength
unset, exactly one feedback token is emitted (OK on accept, RETRY on
the rejections), and at most one delivery is made (exactly one on
accept, none on the rejections). -/
theorem claim_c4_terminal_reset (dm : MsgDecoder) (dp : PayDecoder) (maxLen : Nat)
    (s s2 : RecvState) (chunk : List Nat) (e : Bool) :
    ((feedStep dm dp maxLen s chunk).tag = Trans.accept →
      (feedStep dm dp maxLen s chunk).st = ⟨[], 0⟩ ∧
      (feedStep dm dp maxLen s chunk).toks = [Tok.ok] ∧
      (feedStep dm dp maxLen s chunk).dels.length = 1) ∧
    ((feedStep dm dp maxLen s chunk).tag = Trans.invalidLength ∨
      (feedStep dm dp maxLen s chunk).tag = Trans.crcMismatch ∨
      (feedStep dm dp maxLen s chunk).tag = Trans.msgDecodeFail →
      (feedStep dm dp maxLen s chunk).st = ⟨[], 0⟩ ∧
      (feedStep dm dp maxLen s chunk).toks = [Tok.retry] ∧
      (feedStep dm dp maxLen s chunk).dels = []) ∧
    ((idleStep s2 e).tag = Trans.idleReset →
      (idleStep s2 e).st = ⟨[], 0⟩ ∧
      (idleStep s2 e).toks = [Tok.retry] ∧
      (idleStep s2 e).dels = []) := by
  simp only [feedStep, payloadPhase, idleStep]
  refine ⟨?_, ?_, ?_⟩ <;> (repeat' split) <;> simp_all

/-- Witness for C4: a fully valid one-byte frame takes the accept
transition with the claimed effects. -/
theorem claim_c4_witness :
    (feedStep dmW dpW 4096 ⟨[], 0⟩ (serialcommSendBytes [65])).st = ⟨[], 0⟩ ∧
    (feedStep dmW dpW 4096 ⟨[], 0⟩ (serialcommSendBytes [65])).toks = [Tok.ok] ∧
    (feedStep dmW dpW 4096 ⟨[], 0⟩ (serialcommSendBytes [65])).dels.length = 1 :=
  (claim_c4_terminal_reset dmW dpW 4096 ⟨[], 0⟩ ⟨[], 0⟩ (serialcommSendBytes [65]) false).1
    (by decide)

/-! Claim C5. -/

/-- C5 counterexample: the serialcomm sender writes no terminator
byte, so its output on the one-byte payload 65 is not of the claimed
shape length, payload, checksum, terminator (it is one byte
shorter). -/
theorem claim_c5_counterexample :
    serialcommSendBytes [65] ≠
      be32bytes 1 ++ [65] ++ be16bytes (calculateCRC16 [65]) ++ [10] := by
  decide

/-- C5 amended: sendData of src/send/send.go writes exactly the
big-endian 4-byte length, the payload bytes (the 20-byte chunking
does not change the byte sequence), the 2-byte big-endian checksum of
the whole unsplit payload as computed by its own zero-table
calculateCRC16, and the newline terminator; Send of
serialcomm/sender.go writes the same layout with the MODBUS checksum
and no terminator byte. -/
theorem claim_c5_amended :
    (∀ data : List Nat, sendDataBytes data =
      be32bytes data.length ++ data ++ be16bytes (calculateCRC16zt data) ++ [10]) ∧
    (∀ data : List Nat, serialcommSendBytes data =
      be32bytes data.length ++ data ++ be16bytes (calculateCRC16 data)) := by
  constructor
  · intro data
    unfold sendDataBytes
    rw [chunksOf20_flatten]
  · intro data
    rfl

/-! Claim C6. -/

/-- C6 amended, serialcomm part: whenever expectedLength is unset and
the buffer reaches four bytes, a decoded length of zero or above
MaxLength immediately discards the whole buffer, leaves
expectedLength unset and emits exactly one RETRY, without waiting for
further bytes. -/
theorem claim_c6_amended (dm : MsgDecoder) (dp : PayDecoder) (maxLen : Nat)
    (s : RecvState) (chunk : List Nat) (h0 : s.expectedLength = 0)
    (h4 : 4 ≤ (s.buffer ++ chunk).length)
    (hbad : be32 ((s.buffer ++ chunk).take 4) = 0 ∨ maxLen < be32 ((s.buffer ++ chunk).take 4)) :
    feedStep dm dp maxLen s chunk = ⟨⟨[], 0⟩, [Tok.retry], [], Trans.invalidLength⟩ := by
  simp only [feedStep]
  rw [if_pos ⟨h0, h4⟩, if_pos ?_]
  rcases hbad with h | h
  · exact Or.inr h
  · exact Or.inl h

/-- Witness for C6 at a zero length prefix. -/
theorem claim_c6_witness :
    feedStep dmA dpA 4096 ⟨[], 0⟩ [0, 0, 0, 0] =
      ⟨⟨[], 0⟩, [Tok.retry], [], Trans.invalidLength⟩ :=
  claim_c6_amended dmA dpA 4096 ⟨[], 0⟩ [0, 0, 0, 0] rfl (by decide) (by decide)

/-- C6 counterexample: the receive.go variant performs no length
validation at all.  Four printable bytes 65 decode to the length
1094795585, far above every configured maximum frame length (4096 in
the serialcomm demo, 10000 in the serialJson variant), yet the
variant stores it as expectedLength, discards nothing and emits no
RETRY. -/
theorem claim_c6_counterexample :
    recvStep dmA ⟨[], 0⟩ [65, 65, 65, 65] = ⟨⟨[], 1094795585⟩, [], []⟩ ∧
    (recvStep dmA ⟨[], 0⟩ [65, 65, 65, 65]).toks ≠ [Tok.retry] := by
  constructor <;> decide

/-! Claim C8. -/

/-- C8 amended: on an elapsed inactivity timeout with a nonempty
buffer, the serialcomm receiver discards the buffer, unsets
expectedLength and emits exactly one RETRY, driven purely by the idle
check; the receive.go variant discards and unsets in the same
situation but emits nothing. -/
theorem claim_c8_amended :
    (∀ s : RecvState, s.buffer ≠ [] →
      idleStep s true = ⟨⟨[], 0⟩, [Tok.retry], [], Trans.idleReset⟩) ∧
    (∀ s : RecvState, s.buffer ≠ [] → recvIdleStep s true = ⟨⟨[], 0⟩, [], []⟩) := by
  constructor <;> intro s hs <;> simp [idleStep, recvIdleStep, hs]

/-- Witness for C8 on a one-byte stale buffer. -/
theorem claim_c8_witness :
    idleStep ⟨[65], 3⟩ true = ⟨⟨[], 0⟩, [Tok.retry], [], Trans.idleReset⟩ :=
  claim_c8_amended.1 ⟨[65], 3⟩ (by decide)

/-- C8 counterexample: the receive.go idle reset (cited lines 87-94)
emits no token at all, contradicting the claimed single RETRY
emission. -/
theorem claim_c8_counterexample :
    (recvIdleStep ⟨[65], 0⟩ true).toks = [] ∧
    (recvIdleStep ⟨[65], 0⟩ true).toks ≠ [Tok.retry] := by
  constructor <;> decide

/-! Claim C10. -/

/-- C10: for a receiver handle whose stop channel is open, Start
followed by a first Close returns normally, leaves the started flag
set and closes the stop channel; a second Close then crashes, because
the started flag was never cleared and the already-closed channel is
closed again. -/
theorem claim_c10_double_close (h : ReceiverHandle) (hfresh : h.stopClosed = false) :
    (closeReceiver (startReceiver h)).2 = CloseOutcome.ok ∧
    ((closeReceiver (startReceiver h)).1).stopClosed = true ∧
    ((closeReceiver (startReceiver h)).1).started = true ∧
    (closeReceiver (closeReceiver (startReceiver h)).1).2 = CloseOutcome.crashed := by
  simp [closeReceiver, startReceiver, hfresh]

/-- Witness for C10 on the handle NewSerialReceiver creates. -/
theorem claim_c10_witness :
    (closeReceiver (startReceiver ⟨false, false⟩)).2 = CloseOutcome.ok ∧
    ((closeReceiver (startReceiver ⟨false, false⟩)).1).stopClosed = true ∧
    ((closeReceiver (startReceiver ⟨false, false⟩)).1).started = true ∧
    (closeReceiver (closeReceiver (startReceiver ⟨false, false⟩)).1).2 =
      CloseOutcome.crashed :=
  claim_c10_double_close ⟨false, false⟩ rfl

/-! Claim C3. -/

/-- C3 counterexample: when the transport answers RETRY on every
attempt, the src/send/send.go loop makes three send attempts and then
exits its loop normally, reporting completion rather than
DeliveryFailure, because the RETRY branch jumps over the final
attempt check. -/
theorem claim_c3_counterexample :
    sendGoRun (fun _ => Fb.got "RETRY") = (3, SendOutcome.exhausted) ∧
    (sendGoRun (fun _ => Fb.got "RETRY")).2 ≠ SendOutcome.fatal := by
  constructor <;> decide

/-- C3 amended: an OK on the second write yields exactly two send
attempts and success in both sender variants; with every attempt
timing out (an empty read) src/send/send.go makes exactly three
attempts and reports DeliveryFailure, but with every attempt answered
RETRY it makes three attempts and completes without a failure report;
src/serialJson/send/send.go checks the attempt limit before sending,
so persistent RETRY, persistent timeouts or persistent read errors
all yield exactly two send attempts followed by DeliveryFailure. -/
theorem claim_c3_amended :
    (∀ fb : Nat → Fb, fb 1 ≠ Fb.got "OK" → fb 2 = Fb.got "OK" →
      sendGoRun fb = (2, SendOutcome.okSuccess)) ∧
    (∀ fb : Nat → Fb2, fb 1 ≠ Fb2.okTok → fb 2 = Fb2.okTok →
      sjRun fb = (2, SendOutcome.okSuccess)) ∧
    sendGoRun (fun _ => Fb.got "") = (3, SendOutcome.fatal) ∧
    sendGoRun (fun _ => Fb.got "RETRY") = (3, SendOutcome.exhausted) ∧
    sjRun (fun _ => Fb2.retryTok) = (2, SendOutcome.fatal) ∧
    sjRun (fun _ => Fb2.err) = (2, SendOutcome.fatal) := by
  refine ⟨?_, ?_, by decide, by decide, by decide, by decide⟩
  · intro fb h1 h2
    have e1 : sendGoRun fb = sendGoBody (fb 1) 1 0 (sendGoAux fb 2 2 1) := rfl
    have e2 : sendGoAux fb 2 2 1 = sendGoBody (fb 2) 2 1 (sendGoAux fb 3 1 2) := rfl
    have hstep2 : sendGoAux fb 2 2 1 = (2, SendOutcome.okSuccess) := by
      rw [e2, h2]
      simp [sendGoBody]
    rw [e1]
    cases hfb : fb 1 with
    | readErr => simpa [sendGoBody] using hstep2
    | got str =>
      have hne : str ≠ "OK" := fun hs => h1 (by rw [hfb, hs])
      by_cases hr : str = "RETRY"
      · simpa [sendGoBody, hne, hr] using hstep2
      · simpa [sendGoBody, hne, hr] using hstep2
  · intro fb h1 h2
    have e1 : sjRun fb = sjBody (fb 1) 1 0 (sjAux fb 2 2 1) := rfl
    have e2 : sjAux fb 2 2 1 = sjBody (fb 2) 2 1 (sjAux fb 3 1 2) := rfl
    have hstep2 : sjAux fb 2 2 1 = (2, SendOutcome.okSuccess) := by
      rw [e2, h2]
      simp [sjBody]
    rw [e1]
    cases hfb : fb 1 with
    | err => simpa [sjBody] using hstep2
    | okTok => exact absurd hfb h1
    | retryTok => simpa [sjBody] using hstep2

/-- Witness for C3: success after one RETRY and one OK. -/
theorem claim_c3_witness :
    sendGoRun (fun a => if a = 2 then Fb.got "OK" else Fb.got "RETRY") =
      (2, SendOutcome.okSuccess) :=
  claim_c3_amended.1 _ (by decide) (by decide)

/-! Claim C7. -/

/-- Feeding a fresh serialcomm receiver one whole frame whose
two checksum bytes do not match the checksum of its payload ends in
the checksum-mismatch transition: buffer reset, expectedLength unset,
one RETRY, no delivery. -/
theorem feedStep_crc_mismatch (dm : MsgDecoder) (dp : PayDecoder) (maxLen : Nat)
    (Q crcB : List Nat) (hpos : 0 < Q.length) (hmax : Q.length ≤ maxLen)
    (hmax32 : maxLen < 4294967296) (hcrcB : crcB.length = 2)
    (hne : be16 crcB ≠ calculateCRC16 Q) :
    feedStep dm dp maxLen ⟨[], 0⟩ (be32bytes Q.length ++ Q ++ crcB) =
      ⟨⟨[], 0⟩, [Tok.retry], [], Trans.crcMismatch⟩ := by
  have hassoc : be32bytes Q.length ++ Q ++ crcB = be32bytes Q.length ++ (Q ++ crcB) :=
    List.append_assoc _ _ _
  have hlen : (be32bytes Q.length ++ Q ++ crcB).length = 4 + Q.length + 2 := by
    simp [List.length_append, be32bytes, hcrcB]
    omega
  simp only [feedStep, List.nil_append]
  have htake : (be32bytes Q.length ++ Q ++ crcB).take 4 = be32bytes Q.length := by
    rw [hassoc]
    exact List.take_left' (be32bytes_length _)
  have hdrop : (be32bytes Q.length ++ Q ++ crcB).drop 4 = Q ++ crcB := by
    rw [hassoc]
    exact List.drop_left' (be32bytes_length _)
  rw [if_pos (show _ ∧ _ from ⟨by trivial, by omega⟩), htake, hdrop,
    be32_be32bytes _ (by omega)]
  rw [if_neg (by omega : ¬(maxLen < Q.length ∨ Q.length = 0))]
  simp only [payloadPhase]
  have hcond2 : 0 < Q.length ∧ Q.length + 2 ≤ (Q ++ crcB).length := by
    constructor
    · exact hpos
    · simp [List.length_append, hcrcB]
  rw [if_pos hcond2, List.take_left, List.drop_left,
    List.take_of_length_le (by omega : crcB.length ≤ 2), if_pos hne]

/-- Flipping one bit of either checksum byte changes the 16-bit value
it carries. -/
theorem be16_flip_ne (c j k : Nat) (hc : c < 65536) (hj : j < 2) (hk : k < 8) :
    be16 ((be16bytes c).set j ((be16bytes c).getD j 0 ^^^ 2 ^ k)) ≠ c := by
  have hks : (0 : Nat) < 2 ^ k := Nat.pos_pow_of_pos _ (by omega)
  have hj01 : j = 0 ∨ j = 1 := by omega
  rcases hj01 with hj0 | hj1
  · subst hj0
    have hset : (be16bytes c).set 0 ((be16bytes c).getD 0 0 ^^^ 2 ^ k) =
        [c / 256 % 256 ^^^ 2 ^ k, c % 256] := rfl
    have hbe : be16 [c / 256 % 256 ^^^ 2 ^ k, c % 256] =
        (c / 256 % 256 ^^^ 2 ^ k) * 256 + c % 256 := rfl
    rw [hset, hbe]
    intro heq
    have hdm : c / 256 % 256 = c / 256 := by omega
    rw [hdm] at heq
    have hx : c / 256 ^^^ 2 ^ k = c / 256 := by omega
    have h0 : c / 256 ^^^ 2 ^ k = c / 256 ^^^ 0 := by simpa using hx
    have h2 := Nat.xor_right_inj.mp h0
    omega
  · subst hj1
    have hset : (be16bytes c).set 1 ((be16bytes c).getD 1 0 ^^^ 2 ^ k) =
        [c / 256 % 256, c % 256 ^^^ 2 ^ k] := rfl
    have hbe : be16 [c / 256 % 256, c % 256 ^^^ 2 ^ k] =
        c / 256 % 256 * 256 + (c % 256 ^^^ 2 ^ k) := rfl
    rw [hset, hbe]
    intro heq
    have hx : c % 256 ^^^ 2 ^ k = c % 256 := by omega
    have h0 : c % 256 ^^^ 2 ^ k = c % 256 ^^^ 0 := by simpa using hx
    have h2 := Nat.xor_right_inj.mp h0
    omega

/-- C7: for an otherwise valid frame (payload within bounds, fully
decodable), flipping any single bit of any payload byte, or any
single bit of either checksum byte, makes the recomputed checksum
differ from the received one, so the fresh receiver takes the
checksum-mismatch transition: one RETRY, full reset with
expectedLength unset, and zero deliveries. -/
theorem claim_c7_integrity (dm : MsgDecoder) (dp : PayDecoder) (maxLen : Nat)
    (P : List Nat) (m : Message) (p : Payload) (i j k : Nat)
    (hbytes : ∀ b ∈ P, b < 256) (hpos : 0 < P.length) (hmax : P.length ≤ maxLen)
    (hmax32 : maxLen < 4294967296) (hm : dm P = some m) (hp : dp m.payload = some p) :
    (i < P.length → k < 8 →
      feedStep dm dp maxLen ⟨[], 0⟩
        (be32bytes P.length ++ P.set i (P.getD i 0 ^^^ 2 ^ k) ++
          be16bytes (calculateCRC16 P)) =
        ⟨⟨[], 0⟩, [Tok.retry], [], Trans.crcMismatch⟩) ∧
    (j < 2 → k < 8 →
      feedStep dm dp maxLen ⟨[], 0⟩
        (be32bytes P.length ++ P ++
          (be16bytes (calculateCRC16 P)).set j
            ((be16bytes (calculateCRC16 P)).getD j 0 ^^^ 2 ^ k)) =
        ⟨⟨[], 0⟩, [Tok.retry], [], Trans.crcMismatch⟩) := by
  constructor
  · intro hi hk
    have hlen' : (P.set i (P.getD i 0 ^^^ 2 ^ k)).length = P.length := List.length_set P ..
    have hne : be16 (be16bytes (calculateCRC16 P)) ≠
        calculateCRC16 (P.set i (P.getD i 0 ^^^ 2 ^ k)) := by
      rw [be16_be16bytes _ (calculateCRC16_lt P)]
      exact (calculateCRC16_flip_ne P i k hi hk).symm
    have h := feedStep_crc_mismatch dm dp maxLen (P.set i (P.getD i 0 ^^^ 2 ^ k))
      (be16bytes (calculateCRC16 P)) (by omega) (by omega) hmax32
      (be16bytes_length _) hne
    rw [hlen'] at h
    exact h
  · intro hj hk
    have hlen2 : ((be16bytes (calculateCRC16 P)).set j
        ((be16bytes (calculateCRC16 P)).getD j 0 ^^^ 2 ^ k)).length = 2 := by
      rw [List.length_set]
      exact be16bytes_length _
    exact feedStep_crc_mismatch dm dp maxLen P _ hpos hmax hmax32 hlen2
      (be16_flip_ne (calculateCRC16 P) j k (calculateCRC16_lt P) hj hk)

/-! Claim C1. -/

theorem serialcommSendBytes_assoc (P : List Nat) :
    serialcommSendBytes P =
      be32bytes P.length ++ (P ++ be16bytes (calculateCRC16 P)) := by
  simp [serialcommSendBytes, List.append_assoc]

theorem serialcommSendBytes_length (P : List Nat) :
    (serialcommSendBytes P).length = P.length + 6 := by
  simp [serialcommSendBytes, List.length_append, be32bytes, be16bytes]

theorem frame_take4 (P : List Nat) :
    (serialcommSendBytes P).take 4 = be32bytes P.length := by
  rw [serialcommSendBytes_assoc]
  exact List.take_left' (be32bytes_length _)

theorem frame_drop4 (P : List Nat) :
    (serialcommSendBytes P).drop 4 = P ++ be16bytes (calculateCRC16 P) := by
  rw [serialcommSendBytes_assoc]
  exact List.drop_left' (be32bytes_length _)

/-- With expectedLength set and fewer buffered bytes than payload
plus checksum, the payload phase waits without effects. -/
theorem payloadPhase_partial (dm : MsgDecoder) (dp : PayDecoder) (P : List Nat) (n : Nat)
    (hn : n < P.length + 2) :
    payloadPhase dm dp ⟨(P ++ be16bytes (calculateCRC16 P)).take n, P.length⟩ =
      ⟨⟨(P ++ be16bytes (calculateCRC16 P)).take n, P.length⟩, [], [], Trans.progress⟩ := by
  simp only [payloadPhase]
  rw [if_neg]
  intro hcontra
  have hge := hcontra.2
  simp only [List.length_take, List.length_append] at hge
  have h2 : (be16bytes (calculateCRC16 P)).length = 2 := be16bytes_length _
  rw [h2] at hge
  omega

/-- With expectedLength set and the full payload plus checksum
buffered, a decodable frame is accepted: reset, one OK, one
delivery. -/
theorem payloadPhase_full (dm : MsgDecoder) (dp : PayDecoder) (P : List Nat)
    (m : Message) (p : Payload) (hpos : 0 < P.length) (hm : dm P = some m)
    (hp : dp m.payload = some p) :
    payloadPhase dm dp ⟨P ++ be16bytes (calculateCRC16 P), P.length⟩ =
      ⟨⟨[], 0⟩, [Tok.ok], [(m, p)], Trans.accept⟩ := by
  simp only [payloadPhase]
  have hc : 0 < P.length ∧
      P.length + 2 ≤ (P ++ be16bytes (calculateCRC16 P)).length := by
    refine ⟨hpos, ?_⟩
    rw [List.length_append, be16bytes_length]
  rw [if_pos hc, List.take_left, List.drop_left,
    List.take_of_length_le (by rw [be16bytes_length] : (be16bytes (calculateCRC16 P)).length ≤ 2),
    be16_be16bytes _ (calculateCRC16_lt P),
    if_neg (by simp : ¬calculateCRC16 P ≠ calculateCRC16 P), hm]
  simp [hp]

/-- Main induction for the round-trip: running the serialcomm
receiver over the remaining chunks of a frame, from any state the
frame prefix has put it in, ends in the accepted configuration. -/
theorem runFrom_frame (dm : MsgDecoder) (dp : PayDecoder) (maxLen : Nat) (P : List Nat)
    (m : Message) (p : Payload)
    (hpos : 0 < P.length) (hmax : P.length ≤ maxLen) (hmax32 : maxLen < 4294967296)
    (hm : dm P = some m) (hp : dp m.payload = some p) :
    ∀ (chunks : List (List Nat)) (k : Nat) (st : RecvState) (toks : List Tok)
      (dels : List (Message × Payload)),
      k ≤ P.length + 6 →
      chunks.flatten = (serialcommSendBytes P).drop k →
      ((k < 4 ∧ st = ⟨(serialcommSendBytes P).take k, 0⟩ ∧ toks = [] ∧ dels = []) ∨
        (4 ≤ k ∧ k < P.length + 6 ∧
          st = ⟨((serialcommSendBytes P).drop 4).take (k - 4), P.length⟩ ∧
          toks = [] ∧ dels = []) ∨
        (k = P.length + 6 ∧ st = ⟨[], 0⟩ ∧ toks = [Tok.ok] ∧ dels = [(m, p)])) →
      runFrom dm dp maxLen (st, toks, dels) chunks = (⟨[], 0⟩, [Tok.ok], [(m, p)]) := by
  intro chunks
  induction chunks with
  | nil =>
    intro k st toks dels hk hflat hinv
    have hlen := congrArg List.length hflat
    simp only [List.flatten_nil, List.length_nil, List.length_drop,
      serialcommSendBytes_length] at hlen
    rcases hinv with ⟨h1, _⟩ | ⟨h1, h2, _⟩ | ⟨h1, hst, htoks, hdels⟩
    · omega
    · omega
    · subst hst; subst htoks; subst hdels; rfl
  | cons c cs ih =>
    intro k st toks dels hk hflat hinv
    have hc : c = ((serialcommSendBytes P).drop k).take c.length := by
      have h := congrArg (List.take c.length) hflat
      rw [List.flatten_cons, List.take_left] at h
      exact h
    have hcs : cs.flatten = (serialcommSendBytes P).drop (k + c.length) := by
      have h := congrArg (List.drop c.length) hflat
      rw [List.flatten_cons, List.drop_left] at h
      rw [h, List.drop_drop]
    have hclen : k + c.length ≤ P.length + 6 := by
      have h1 : c.length = (((serialcommSendBytes P).drop k).take c.length).length := by
        rw [← hc]
      rw [List.length_take, List.length_drop, serialcommSendBytes_length] at h1
      omega
    have hstep : ∀ st' toks' dels',
        runFrom dm dp maxLen (st', toks', dels') (c :: cs) =
          runFrom dm dp maxLen
            ((feedStep dm dp maxLen st' c).st,
              toks' ++ (feedStep dm dp maxLen st' c).toks,
              dels' ++ (feedStep dm dp maxLen st' c).dels) cs :=
      fun _ _ _ => rfl
    rcases hinv with ⟨hklt, hst, htoks, hdels⟩ | ⟨hk4, hklt, hst, htoks, hdels⟩ |
      ⟨hkeq, hst, htoks, hdels⟩
    · -- fewer than four bytes fed so far
      subst hst; subst htoks; subst hdels
      have hbuf : (serialcommSendBytes P).take k ++ c =
          (serialcommSendBytes P).take (k + c.length) := by
        rw [List.take_add, ← hc]
      by_cases h4 : k + c.length < 4
      · have hfeed : feedStep dm dp maxLen ⟨(serialcommSendBytes P).take k, 0⟩ c =
            ⟨⟨(serialcommSendBytes P).take (k + c.length), 0⟩, [], [], Trans.progress⟩ := by
          simp only [feedStep, hbuf]
          rw [if_neg]
          · simp only [payloadPhase]
            rw [if_neg]
            intro hcontra
            exact absurd hcontra.1 (by omega)
          · intro hcontra
            have hge := hcontra.2
            rw [List.length_take, serialcommSendBytes_length] at hge
            omega
        rw [hstep, hfeed]
        simp only [List.append_nil]
        exact ih (k + c.length) _ _ _ hclen hcs (Or.inl ⟨h4, rfl, rfl, rfl⟩)
      · -- the length prefix completes in this read
        have hfeed : feedStep dm dp maxLen ⟨(serialcommSendBytes P).take k, 0⟩ c =
            payloadPhase dm dp
              ⟨((serialcommSendBytes P).drop 4).take (k + c.length - 4), P.length⟩ := by
          simp only [feedStep, hbuf]
          rw [if_pos (show _ ∧ _ from
            ⟨by trivial, by rw [List.length_take, serialcommSendBytes_length]; omega⟩)]
          rw [List.take_take, show min 4 (k + c.length) = 4 by omega, frame_take4,
            be32_be32bytes _ (by omega), List.drop_take]
          rw [if_neg (by omega : ¬(maxLen < P.length ∨ P.length = 0))]
        by_cases hfull : k + c.length < P.length + 6
        · rw [hstep, hfeed, frame_drop4,
            payloadPhase_partial dm dp P (k + c.length - 4) (by omega)]
          simp only [List.append_nil]
          have := ih (k + c.length) _ _ _ hclen hcs
            (Or.inr (Or.inl ⟨by omega, hfull, by rw [frame_drop4], rfl, rfl⟩))
          exact this
        · have hkful : k + c.length = P.length + 6 := by omega
          rw [hstep, hfeed, frame_drop4, hkful]
          rw [show P.length + 6 - 4 = P.length + 2 from by omega]
          rw [List.take_of_length_le
            (by rw [List.length_append, be16bytes_length] :
              (P ++ be16bytes (calculateCRC16 P)).length ≤ P.length + 2)]
          rw [payloadPhase_full dm dp P m p hpos hm hp]
          simp only [List.nil_append]
          exact ih (k + c.length) _ _ _ hclen hcs
            (Or.inr (Or.inr ⟨hkful, rfl, rfl, rfl⟩))
    · -- length known, payload being gathered
      subst hst; subst htoks; subst hdels
      have hbuf : ((serialcommSendBytes P).drop 4).take (k - 4) ++ c =
          ((serialcommSendBytes P).drop 4).take (k - 4 + c.length) := by
        rw [List.take_add]
        have hdd : ((serialcommSendBytes P).drop 4).drop (k - 4) =
            (serialcommSendBytes P).drop k := by
          rw [List.drop_drop, show 4 + (k - 4) = k from by omega]
        rw [hdd, ← hc]
      have hfeed : feedStep dm dp maxLen
          ⟨((serialcommSendBytes P).drop 4).take (k - 4), P.length⟩ c =
          payloadPhase dm dp
            ⟨((serialcommSendBytes P).drop 4).take (k + c.length - 4), P.length⟩ := by
        simp only [feedStep, hbuf]
        rw [if_neg (by intro hcontra; exact absurd hcontra.1 (by omega))]
        rw [show k - 4 + c.length = k + c.length - 4 from by omega]
      by_cases hfull : k + c.length < P.length + 6
      · rw [hstep, hfeed, frame_drop4,
          payloadPhase_partial dm dp P (k + c.length - 4) (by omega)]
        simp only [List.append_nil]
        exact ih (k + c.length) _ _ _ hclen hcs
          (Or.inr (Or.inl ⟨by omega, hfull, by rw [frame_drop4], rfl, rfl⟩))
      · have hkful : k + c.length = P.length + 6 := by omega
        rw [hstep, hfeed, frame_drop4, hkful]
        rw [show P.length + 6 - 4 = P.length + 2 from by omega]
        rw [List.take_of_length_le
          (by rw [List.length_append, be16bytes_length] :
            (P ++ be16bytes (calculateCRC16 P)).length ≤ P.length + 2)]
        rw [payloadPhase_full dm dp P m p hpos hm hp]
        simp only [List.nil_append]
        exact ih (k + c.length) _ _ _ hclen hcs
          (Or.inr (Or.inr ⟨hkful, rfl, rfl, rfl⟩))
    · -- frame already complete: only empty chunks can remain
      subst hst; subst htoks; subst hdels
      have hcnil : c = [] := by
        have hdrop : (serialcommSendBytes P).drop k = [] := by
          apply List.drop_eq_nil_iff.mpr
          rw [serialcommSendBytes_length]
          omega
        rw [hdrop] at hc
        simpa using hc
      subst hcnil
      have hfeed : feedStep dm dp maxLen ⟨[], 0⟩ [] =
          ⟨⟨[], 0⟩, [], [], Trans.progress⟩ := rfl
      rw [hstep, hfeed]
      simp only [List.append_nil]
      exact ih (k + 0) _ _ _ (by omega) (by simpa using hcs)
        (Or.inr (Or.inr ⟨by omega, rfl, rfl, rfl⟩))

/-- C1 amended: for every byte payload P within the length bounds
that decodes as a Message whose payload field also base64-decodes to
a valid Payload document, feeding the serialcomm sender encoding of P
into a fresh reassembler, split across arbitrary byte-boundary
chunks, yields exactly one delivered message equal to the decode of P
and exactly one OK emission, with the state fully reset. -/
theorem claim_c1_roundtrip (dm : MsgDecoder) (dp : PayDecoder) (maxLen : Nat)
    (P : List Nat) (m : Message) (p : Payload) (chunks : List (List Nat))
    (hbytes : ∀ b ∈ P, b < 256) (hpos : 0 < P.length) (hmax : P.length ≤ maxLen)
    (hmax32 : maxLen < 4294967296) (hm : dm P = some m) (hp : dp m.payload = some p)
    (hflat : chunks.flatten = serialcommSendBytes P) :
    runChunks dm dp maxLen chunks = (⟨[], 0⟩, [Tok.ok], [(m, p)]) := by
  unfold runChunks
  exact runFrom_frame dm dp maxLen P m p hpos hmax hmax32 hm hp chunks 0 ⟨[], 0⟩ [] []
    (by omega) (by simpa using hflat) (Or.inl ⟨by omega, by simp, rfl, rfl⟩)

/-- Witness for C1: a one-byte payload sent in one chunk is delivered
once with one OK. -/
theorem claim_c1_witness :
    runChunks dmW dpW 4096 [serialcommSendBytes [65]] =
      (⟨[], 0⟩, [Tok.ok], [(msgW, payW)]) :=
  claim_c1_roundtrip dmW dpW 4096 [65] msgW payW [serialcommSendBytes [65]]
    (by decide) (by decide) (by decide) (by decide) (by decide) (by decide) (by simp)

/-- C1 counterexample: the seven bytes of the JSON object with key a
and value 1 parse as a valid Message under Go json.Unmarshal (unknown
keys are ignored), but its empty payload field does not decode to a
Payload document, so the receiver.go path delivers nothing and emits
no token at all for this frame (it also fails to reset
expectedLength), refuting the claimed one delivery and one OK. -/
theorem claim_c1_counterexample :
    dmA abytes = some msgA ∧
    (runChunks dmA dpA 4096 [serialcommSendBytes abytes]).2.1 = [] ∧
    (runChunks dmA dpA 4096 [serialcommSendBytes abytes]).2.2 = [] ∧
    (runChunks dmA dpA 4096 [serialcommSendBytes abytes]).1.expectedLength ≠ 0 :=
  ⟨by decide, by decide, by decide, by decide⟩

/-! Claim C9. -/

theorem allowedByte_ge {b : Nat} (h : allowedByte b = true) : 10 ≤ b := by
  unfold allowedByte at h
  simp only [Bool.or_eq_true, Bool.and_eq_true, decide_eq_true_eq, beq_iff_eq] at h
  omega

/-- Four buffered bytes that all passed the receive.go filter decode
to a length of at least 10 * 2 ^ 24. -/
theorem be32_take4_ge (l : List Nat) (h4 : 4 ≤ l.length)
    (hall : ∀ b ∈ l, allowedByte b = true) : 167772160 ≤ be32 (l.take 4) := by
  rcases l with _ | ⟨b0, l⟩
  · simp at h4
  rcases l with _ | ⟨b1, l⟩
  · simp at h4
  rcases l with _ | ⟨b2, l⟩
  · simp at h4
  rcases l with _ | ⟨b3, l⟩
  · simp at h4
  have h0 : 10 ≤ b0 := allowedByte_ge (hall b0 (by simp))
  show 167772160 ≤ be32 [b0, b1, b2, b3]
  simp only [be32]
  omega

/-- Part of C9: the buffer of the receive.go loop only ever contains
bytes that pass the filter; in particular bytes outside the allowed
set, such as the zero bytes of small length prefixes, never enter
it. -/
theorem recvStep_allowed (dm : MsgDecoder) (s : RecvState) (chunk : List Nat)
    (hall : ∀ b ∈ s.buffer, allowedByte b = true) :
    ∀ b ∈ (recvStep dm s chunk).st.buffer, allowedByte b = true := by
  have hbuf : ∀ b ∈ s.buffer ++ chunk.filter allowedByte, allowedByte b = true := by
    intro b hb
    rcases List.mem_append.mp hb with h | h
    · exact hall b h
    · exact List.of_mem_filter h
  intro b hb
  simp only [recvStep] at hb
  repeat' split at hb
  all_goals dsimp only at hb
  all_goals
    first
      | exact hbuf b hb
      | exact hbuf b (List.mem_of_mem_drop hb)
      | simp at hb

/-- One receive.go iteration on a frame stream whose filtered volume
is below the minimal decodable length threshold emits nothing,
delivers nothing, never grows the buffer beyond the filtered input
and keeps expectedLength unset or huge. -/
theorem recvStep_quiet (dm : MsgDecoder) (st : RecvState) (c : List Nat)
    (hall : ∀ b ∈ st.buffer, allowedByte b = true)
    (hexp : st.expectedLength = 0 ∨ 167772160 ≤ st.expectedLength)
    (hbound : st.buffer.length + (c.filter allowedByte).length ≤ 16777220) :
    (recvStep dm st c).toks = [] ∧ (recvStep dm st c).dels = [] ∧
    (recvStep dm st c).st.buffer.length ≤
      st.buffer.length + (c.filter allowedByte).length ∧
    ((recvStep dm st c).st.expectedLength = 0 ∨
      167772160 ≤ (recvStep dm st c).st.expectedLength) := by
  have hallbuf : ∀ b ∈ st.buffer ++ c.filter allowedByte, allowedByte b = true := by
    intro b hb
    rcases List.mem_append.mp hb with h | h
    · exact hall b h
    · exact List.of_mem_filter h
  have hbuflen : (st.buffer ++ c.filter allowedByte).length =
      st.buffer.length + (c.filter allowedByte).length := List.length_append _ _
  simp only [recvStep]
  by_cases hA : st.expectedLength = 0 ∧ 4 ≤ (st.buffer ++ c.filter allowedByte).length
  · rw [if_pos hA]
    have hge : 167772160 ≤ be32 ((st.buffer ++ c.filter allowedByte).take 4) :=
      be32_take4_ge _ hA.2 hallbuf
    rw [if_neg]
    · refine ⟨rfl, rfl, ?_, Or.inr hge⟩
      dsimp only
      rw [List.length_drop, hbuflen]
      omega
    · intro hcontra
      dsimp only at hcontra
      have h2 := hcontra.2.1
      rw [List.length_drop, hbuflen] at h2
      omega
  · rw [if_neg hA]
    rw [if_neg]
    · refine ⟨rfl, rfl, ?_, hexp⟩
      dsimp only
      exact le_of_eq hbuflen
    · intro hcontra
      dsimp only at hcontra
      rcases hexp with h0 | hbig
      · exact absurd hcontra.1 (by omega)
      · have h2 := hcontra.2.1
        rw [hbuflen] at h2
        omega

/-- Running the receive.go loop over chunks whose filtered volume
stays below the threshold produces no tokens and no deliveries. -/
theorem runRecvFrom_quiet (dm : MsgDecoder) :
    ∀ (chunks : List (List Nat)) (st : RecvState) (toks : List Tok) (dels : List Message),
      (∀ b ∈ st.buffer, allowedByte b = true) →
      (st.expectedLength = 0 ∨ 167772160 ≤ st.expectedLength) →
      st.buffer.length + (chunks.flatten.filter allowedByte).length ≤ 16777220 →
      (runRecvFrom dm (st, toks, dels) chunks).2.1 = toks ∧
      (runRecvFrom dm (st, toks, dels) chunks).2.2 = dels := by
  intro chunks
  induction chunks with
  | nil => intro st toks dels _ _ _; exact ⟨rfl, rfl⟩
  | cons c cs ih =>
    intro st toks dels hall hexp hbound
    have hsplit : (List.flatten (c :: cs)).filter allowedByte =
        c.filter allowedByte ++ cs.flatten.filter allowedByte := by
      rw [List.flatten_cons, List.filter_append]
    have hlen : ((c :: cs).flatten.filter allowedByte).length =
        (c.filter allowedByte).length + (cs.flatten.filter allowedByte).length := by
      rw [hsplit, List.length_append]
    have hq := recvStep_quiet dm st c hall hexp (by omega)
    have hstep : runRecvFrom dm (st, toks, dels) (c :: cs) =
        runRecvFrom dm
          ((recvStep dm st c).st, toks ++ (recvStep dm st c).toks,
            dels ++ (recvStep dm st c).dels) cs := rfl
    rw [hstep, hq.1, hq.2.1, List.append_nil, List.append_nil]
    exact ih (recvStep dm st c).st toks dels
      (recvStep_allowed dm st c hall) hq.2.2.2 (by omega)

/-- The filtered volume of a whole send.go frame is at most four
bytes more than the payload length: the leading zero of the length
prefix and both bytes of the constant-zero checksum are discarded by
the filter, leaving at most three prefix bytes, the payload and the
newline terminator. -/
theorem filter_sendDataBytes_length (P : List Nat) (hP : P.length < 16777216) :
    ((sendDataBytes P).filter allowedByte).length ≤ P.length + 4 := by
  unfold sendDataBytes
  rw [chunksOf20_flatten, calculateCRC16zt_eq_zero]
  have hfirst : P.length / 16777216 % 256 = 0 := by omega
  have hbe32 : be32bytes P.length =
      0 :: [P.length / 65536 % 256, P.length / 256 % 256, P.length % 256] := by
    unfold be32bytes
    rw [hfirst]
  simp only [List.filter_append, List.length_append, hbe32]
  rw [List.filter_cons_of_neg (by decide : ¬allowedByte 0 = true)]
  have h1 := List.length_filter_le allowedByte
    [P.length / 65536 % 256, P.length / 256 % 256, P.length % 256]
  have h2 := List.length_filter_le allowedByte P
  have h3 : ((be16bytes 0).filter allowedByte).length = 0 := by decide
  have h4 : (([10] : List Nat).filter allowedByte).length = 1 := by decide
  simp only [List.length_cons, List.length_nil] at h1
  omega

/-- C9: in the receive.go variant every incoming byte outside the
range 32 to 126 and different from 10 is silently discarded before
entering the reassembly buffer, so the buffer only ever holds allowed
bytes and the discarded bytes of a length prefix never enter it; and
for every frame produced by the send.go sender whose payload length
is below 2 ^ 24 (so that its length prefix carries a zero byte), the
frame can never be reassembled by this variant: fed in arbitrary
chunks, the fresh loop delivers nothing and emits nothing, because
the surviving bytes that get parsed as a length decode to at least
10 * 2 ^ 24, which no buffer of so short a stream can satisfy. -/
theorem claim_c9_filter :
    (∀ (dm : MsgDecoder) (s : RecvState) (chunk : List Nat),
      (∀ b ∈ s.buffer, allowedByte b = true) →
      ∀ b ∈ (recvStep dm s chunk).st.buffer, allowedByte b = true) ∧
    (∀ (dm : MsgDecoder) (P : List Nat) (chunks : List (List Nat)),
      P.length < 16777216 → chunks.flatten = sendDataBytes P →
      (runRecvChunks dm chunks).2.1 = [] ∧ (runRecvChunks dm chunks).2.2 = []) := by
  constructor
  · exact recvStep_allowed
  · intro dm P chunks hP hflat
    unfold runRecvChunks
    apply runRecvFrom_quiet dm chunks ⟨[], 0⟩ [] [] (by simp) (Or.inl rfl)
    rw [hflat]
    have h := filter_sendDataBytes_length P hP
    simp only [List.length_nil]
    omega

/-- Witness for C9: the seven-byte frame for the small JSON object is
never reassembled by the receive.go variant. -/
theorem claim_c9_witness :
    (runRecvChunks dmA [sendDataBytes abytes]).2.1 = [] ∧
    (runRecvChunks dmA [sendDataBytes abytes]).2.2 = [] :=
  claim_c9_filter.2 dmA abytes [sendDataBytes abytes] (by decide) (by simp)

/-- Witness for C7: flipping bit zero of the single payload byte of a
one-byte frame triggers the mismatch transition. -/
theorem claim_c7_witness :
    feedStep dmW dpW 4096 ⟨[], 0⟩
      (be32bytes ([65] : List Nat).length ++
        ([65] : List Nat).set 0 (([65] : List Nat).getD 0 0 ^^^ 2 ^ 0) ++
        be16bytes (calculateCRC16 [65])) =
      ⟨⟨[], 0⟩, [Tok.retry], [], Trans.crcMismatch⟩ :=
  (claim_c7_integrity dmW dpW 4096 [65] msgW payW 0 0 0 (by decide) (by decide)
    (by decide) (by decide) (by decide) (by decide)).1 (by decide) (by decide)

end SerialJson
